import Mathlib

/-!
# K-Means engine: formal model and verification

The repository is a notebook (`src/kmeans.ipynb`) that delegates clustering to
an external library's `KMeans` estimator; the clustering engine itself is not
part of the repository's source.  Following the specification (`spec.md`,
section 4.1 "KMeansEngine"), the engine is modelled here from the spec's words:
datasets are ordered lists of rational feature vectors, `fit` runs the
initialization / assignment / update / convergence-check loop, `predict`
assigns new points to fitted centroids.  Real-valued features are modelled by
rationals so that every operation is executable and decidable; Euclidean
distance comparisons are carried out on squared distances, which order points
identically (the theorems about Euclidean minimality are stated with
`Real.sqrt` and derived from the squared versions).

The one piece of repository code formalised directly from `src/kmeans.ipynb`
is the results-table cell (`results_df = df.copy();
results_df['predicted'] = kmeans.labels_`), modelled with an explicit heap of
dataframe objects so that Python's reference/copy semantics is visible.
-/

/-- A data point: a vector of rational features. -/
abbrev Point := List ℚ

/-- A dataset: an ordered sequence of points. -/
abbrev Dataset := List Point

/-- Modelled from the spec: squared Euclidean distance between two points
(sum over coordinates of the squared componentwise difference). -/
def sqDist (p q : Point) : ℚ :=
  ((p.zip q).map (fun pr => (pr.1 - pr.2) ^ 2)).sum

/-- Modelled from the spec (assignment step): index of the nearest centroid to
`p`, ties broken toward the lowest index.  Comparisons use squared distances,
which induce the same order as Euclidean distances. -/
def nearest (p : Point) : List Point → Nat
  | [] => 0
  | c :: cs =>
    match cs with
    | [] => 0
    | _ :: _ =>
      let j := nearest p cs
      if sqDist p c ≤ sqDist p (cs.getD j []) then 0 else j + 1

/-- Modelled from the spec: the assignment vector, mapping each dataset point
to its nearest centroid index. -/
def assignAll (data : Dataset) (cs : List Point) : List Nat :=
  data.map (fun p => nearest p cs)

/-- Componentwise sum of two vectors. -/
def vecAdd (p q : Point) : Point :=
  (p.zip q).map (fun pr => pr.1 + pr.2)

/-- Sum of a list of `D`-dimensional vectors. -/
def vecSum (D : Nat) : List Point → Point
  | [] => List.replicate D 0
  | p :: ps => vecAdd p (vecSum D ps)

/-- Modelled from the spec (update step): componentwise mean of a list of
`D`-dimensional points. -/
def meanPoint (D : Nat) (ps : List Point) : Point :=
  (vecSum D ps).map (fun x => x / (ps.length : ℚ))

/-- The points of `data` currently assigned to cluster `k`. -/
def clusterPts (data : Dataset) (cs : List Point) (k : Nat) : Dataset :=
  data.filter (fun p => nearest p cs == k)

/-- Modelled from the spec (update step): recompute each centroid as the mean
of the points assigned to it; a cluster with zero points keeps its previous
centroid unchanged. -/
def updateCentroids (D : Nat) (data : Dataset) (cs : List Point) : List Point :=
  (List.range cs.length).map (fun k =>
    let pts := clusterPts data cs k
    if pts.isEmpty then cs.getD k [] else meanPoint D pts)

/-- Modelled from the spec (convergence check): maximum squared Euclidean
displacement between corresponding old and new centroids. -/
def maxSqDisp (old new : List Point) : ℚ :=
  ((old.zip new).map (fun pr => sqDist pr.1 pr.2)).foldr max 0

/-- Modelled from the spec (main loop): the sequence of centroid sets produced
by successive assignment/update iterations, stopping at the first iteration
whose maximum squared displacement is at most `tol2` (the squared tolerance)
or when the fuel (`max_iterations`) runs out.  Its length is the number of
iterations executed. -/
def kmeansTrace (D : Nat) (data : Dataset) (tol2 : ℚ) :
    Nat → List Point → List (List Point)
  | 0, _ => []
  | fuel + 1, cs =>
    let cs2 := updateCentroids D data cs
    if maxSqDisp cs cs2 ≤ tol2 then [cs2]
    else cs2 :: kmeansTrace D data tol2 fuel cs2

/-- Modelled from the spec (finalize): inertia, the sum over all points of the
squared distance to their assigned (nearest) centroid. -/
def inertiaOf (data : Dataset) (cs : List Point) : ℚ :=
  (data.map (fun p => sqDist p (cs.getD (nearest p cs) []))).sum

/-- Modelled from the spec: the two supported initialization strategies. -/
inductive InitStrategy where
  | random
  | kmeansPlusPlus
deriving DecidableEq, Repr

/-- A small linear congruential pseudo-random step, used to make the seeded
initialization strategies deterministic functions of the seed. -/
def lcg (s : Nat) : Nat := (1103515245 * s + 12345) % 2147483648

/-- Modelled from the spec (`random` init): uniformly sample `k` distinct
points from the available pool, driven by the seed. -/
def pickDistinct : Nat → Nat → List Point → List Point
  | 0, _, _ => []
  | k + 1, s, avail =>
    match avail with
    | [] => []
    | a :: rest =>
      let i := lcg s % (a :: rest).length
      (a :: rest).getD i [] :: pickDistinct k (lcg s) ((a :: rest).eraseIdx i)

/-- Pick the index of the cumulative-weight bucket containing `r`. -/
def pickBucket (r : ℚ) : List ℚ → Nat
  | [] => 0
  | w :: ws => if r < w then 0 else pickBucket (r - w) ws + 1

/-- Squared distance from `p` to the nearest of the already-chosen centroids. -/
def minSqDistTo (p : Point) (chosen : List Point) : ℚ :=
  ((chosen.map (fun c => sqDist p c)).foldr min (sqDist p (chosen.headD [])))

/-- Modelled from the spec (`kmeans++` init): choose each subsequent centroid
by seeded sampling with probability proportional to the squared distance to
the nearest already-chosen centroid. -/
def kmeansppPick (data : Dataset) : Nat → Nat → List Point → List Point
  | 0, _, chosen => chosen
  | k + 1, s, chosen =>
    let ws := data.map (fun p => minSqDistTo p chosen)
    let total := ws.sum
    let r : ℚ := ((lcg s % 1024 : Nat) : ℚ) / 1024 * total
    let j := pickBucket r ws
    let j := if j < data.length then j else 0
    kmeansppPick data k (lcg s) (chosen ++ [data.getD j []])

/-- Modelled from the spec (initialization): select `K` initial centroids from
the dataset with the chosen strategy, deterministically in the seed. -/
def initCentroids (data : Dataset) (K : Nat) :
    InitStrategy → Nat → List Point
  | InitStrategy.random, seed => pickDistinct K seed data
  | InitStrategy.kmeansPlusPlus, seed =>
    match K with
    | 0 => []
    | K' + 1 =>
      let first := data.getD (lcg seed % data.length) []
      kmeansppPick data K' (lcg seed) [first]

/-- The error taxonomy of the spec. -/
inductive KMeansError where
  | InvalidConfiguration
  | EmptyDataset
  | DimensionMismatch
deriving DecidableEq, Repr

/-- All points of the dataset share the dimension of the first point. -/
def dimOk : Dataset → Bool
  | [] => true
  | p :: rest => rest.all (fun q => q.length == p.length)

/-- The result of a successful `fit`. -/
structure FitResult where
  centroids : List Point
  labels : List Nat
  iterations : Nat
  inertia : ℚ
deriving DecidableEq, Repr

/-- Modelled from the spec (`KMeansEngine.fit`): validate the input eagerly
(`EmptyDataset`, `InvalidConfiguration`, `DimensionMismatch`), then run the
initialization / assignment / update / convergence loop and finalize. -/
def fit (data : Dataset) (K maxIter : Nat) (tol : ℚ)
    (strategy : InitStrategy) (seed : Nat) : Except KMeansError FitResult :=
  if data.length = 0 then Except.error KMeansError.EmptyDataset
  else if K < 1 ∨ data.length < K then Except.error KMeansError.InvalidConfiguration
  else if ¬ dimOk data then Except.error KMeansError.DimensionMismatch
  else
    let D := (data.headD []).length
    let cs0 := initCentroids data K strategy seed
    let tr := kmeansTrace D data (tol * tol) maxIter cs0
    let csf := tr.getLastD cs0
    Except.ok
      { centroids := csf
        labels := assignAll data csf
        iterations := tr.length
        inertia := inertiaOf data csf }

/-- Modelled from the spec (`KMeansEngine.predict`): assign each new point to
its nearest fitted centroid; fails with `DimensionMismatch` when a point's
dimension differs from the centroids' dimension. -/
def predict (cs : List Point) (newPoints : Dataset) : Except KMeansError (List Nat) :=
  if newPoints.all (fun p => p.length == (cs.headD []).length) then
    Except.ok (assignAll newPoints cs)
  else Except.error KMeansError.DimensionMismatch

instance : DecidableEq (Except KMeansError FitResult) := fun a b =>
  match a, b with
  | Except.error x, Except.error y =>
    if h : x = y then Decidable.isTrue (by rw [h])
    else Decidable.isFalse (fun hc => h (Except.error.inj hc))
  | Except.ok x, Except.ok y =>
    if h : x = y then Decidable.isTrue (by rw [h])
    else Decidable.isFalse (fun hc => h (Except.ok.inj hc))
  | Except.error _, Except.ok _ =>
    Decidable.isFalse (fun hc => Except.noConfusion hc)
  | Except.ok _, Except.error _ =>
    Decidable.isFalse (fun hc => Except.noConfusion hc)

/-- A dataframe as used by the notebook: named columns of rational values. -/
abbrev DataFrame := List (String × List ℚ)

/-- Column assignment `frame[name] = vals` as in `src/kmeans.ipynb`
(`results_df['predicted'] = kmeans.labels_`): replaces the column when the
name already exists, appends a new column otherwise. -/
def setColumn (df : DataFrame) (name : String) (vals : List ℚ) : DataFrame :=
  if df.any (fun col => col.1 == name) then
    df.map (fun col => if col.1 == name then (name, vals) else col)
  else df ++ [(name, vals)]

/-- The results cell of `src/kmeans.ipynb`: `results_df = df.copy()` allocates
a new dataframe object holding a copy of `df`'s object, then
`results_df['predicted'] = kmeans.labels_` mutates only that new object.  The
heap of dataframe objects is explicit (Python variables are references into
it); `dfId` is the index of `df`'s object.  Returns the updated heap and the
index of `results_df`'s object. -/
def runResultsCell (heap : List DataFrame) (dfId : Nat) (labels : List ℚ) :
    List DataFrame × Nat :=
  let copyId := heap.length
  let heap1 := heap ++ [heap.getD dfId []]
  let heap2 := heap1.set copyId (setColumn (heap1.getD copyId []) "predicted" labels)
  (heap2, copyId)

/-! ## Basic facts about squared distance and nearest-centroid search -/

theorem sqDist_nonneg (p q : Point) : 0 ≤ sqDist p q := by
  apply List.sum_nonneg
  intro x hx
  obtain ⟨pr, _, rfl⟩ := List.mem_map.mp hx
  positivity

theorem sqDist_self (p : Point) : sqDist p p = 0 := by
  induction p with
  | nil => rfl
  | cons a t ih => simp [sqDist] at ih ⊢; simpa using ih

theorem sqDist_cons (a b : ℚ) (t u : Point) :
    sqDist (a :: t) (b :: u) = (a - b) ^ 2 + sqDist t u := by
  simp [sqDist]

theorem nearest_nil (p : Point) : nearest p [] = 0 := rfl

theorem nearest_single (p c : Point) : nearest p [c] = 0 := rfl

theorem nearest_cons_cons (p c c2 : Point) (cs : List Point) :
    nearest p (c :: c2 :: cs) =
      if sqDist p c ≤ sqDist p ((c2 :: cs).getD (nearest p (c2 :: cs)) []) then 0
      else nearest p (c2 :: cs) + 1 := rfl

theorem nearest_lt_length (p : Point) :
    ∀ cs : List Point, cs ≠ [] → nearest p cs < cs.length := by
  intro cs
  induction cs with
  | nil => intro h; exact absurd rfl h
  | cons c rest ih =>
    intro _
    cases rest with
    | nil => simp [nearest]
    | cons c2 cs2 =>
      rw [nearest_cons_cons]
      split
      · simp
      · simpa using Nat.succ_lt_succ (ih (by simp))

theorem nearest_min (p : Point) :
    ∀ (cs : List Point) (j : Nat), j < cs.length →
      sqDist p (cs.getD (nearest p cs) []) ≤ sqDist p (cs.getD j []) := by
  intro cs
  induction cs with
  | nil => intro j hj; simp at hj
  | cons c rest ih =>
    intro j hj
    cases rest with
    | nil =>
      cases j with
      | zero => simp [nearest]
      | succ j' => simp at hj
    | cons c2 cs2 =>
      rw [nearest_cons_cons]
      split
      · rename_i h
        cases j with
        | zero => simp
        | succ j' =>
          have hj' : j' < (c2 :: cs2).length := by simpa using hj
          calc sqDist p ((c :: c2 :: cs2).getD 0 []) = sqDist p c := by simp
            _ ≤ sqDist p ((c2 :: cs2).getD (nearest p (c2 :: cs2)) []) := h
            _ ≤ sqDist p ((c2 :: cs2).getD j' []) := ih j' hj'
            _ = sqDist p ((c :: c2 :: cs2).getD (j' + 1) []) := by simp
      · rename_i h
        cases j with
        | zero =>
          have := lt_of_not_le h
          simpa using this.le
        | succ j' =>
          have hj' : j' < (c2 :: cs2).length := by simpa using hj
          simpa using ih j' hj'

theorem nearest_earlier_strict (p : Point) :
    ∀ (cs : List Point) (j : Nat), j < nearest p cs →
      sqDist p (cs.getD (nearest p cs) []) < sqDist p (cs.getD j []) := by
  intro cs
  induction cs with
  | nil => intro j hj; simp [nearest_nil] at hj
  | cons c rest ih =>
    intro j hj
    cases rest with
    | nil => simp [nearest_single] at hj
    | cons c2 cs2 =>
      by_cases h : sqDist p c ≤ sqDist p ((c2 :: cs2).getD (nearest p (c2 :: cs2)) [])
      · rw [nearest_cons_cons, if_pos h] at hj
        omega
      · rw [nearest_cons_cons, if_neg h] at hj ⊢
        cases j with
        | zero =>
          simpa using lt_of_not_le h
        | succ j' =>
          have hj' : j' < nearest p (c2 :: cs2) := by omega
          simpa using ih j' hj'

/-! ## The componentwise mean minimizes the within-cluster squared distance -/

theorem sum_sq_shift (xs : List ℚ) (c : ℚ) :
    (xs.map (fun x => (x - c) ^ 2)).sum
      = (xs.map (fun x => x ^ 2)).sum - 2 * c * xs.sum + (xs.length : ℚ) * c ^ 2 := by
  induction xs with
  | nil => simp
  | cons a xs ih =>
    simp only [List.map_cons, List.sum_cons, List.length_cons, ih]
    push_cast
    ring

theorem sum_sq_mean_le (xs : List ℚ) (c : ℚ) (h : xs ≠ []) :
    (xs.map (fun x => (x - xs.sum / (xs.length : ℚ)) ^ 2)).sum
      ≤ (xs.map (fun x => (x - c) ^ 2)).sum := by
  have hn : (0 : ℚ) < (xs.length : ℚ) := by
    have := List.length_pos.mpr h
    exact_mod_cast this
  set n : ℚ := (xs.length : ℚ) with hn'
  set m : ℚ := xs.sum / n with hm
  have hsum : xs.sum = n * m := by
    rw [hm]
    field_simp
  rw [sum_sq_shift, sum_sq_shift, hsum]
  nlinarith [mul_nonneg hn.le (sq_nonneg (m - c))]

theorem vecAdd_cons (a b : ℚ) (t u : Point) :
    vecAdd (a :: t) (b :: u) = (a + b) :: vecAdd t u := by
  simp [vecAdd]

theorem vecSum_cons_dim (D : Nat) (ps : List Point)
    (h : ∀ p ∈ ps, p.length = D + 1) :
    vecSum (D + 1) ps
      = (ps.map (fun p => p.headD 0)).sum :: vecSum D (ps.map List.tail) := by
  induction ps with
  | nil => simp [vecSum, List.replicate_succ]
  | cons p ps ih =>
    have hp : p.length = D + 1 := h p (List.mem_cons_self p ps)
    cases p with
    | nil => simp at hp
    | cons a t =>
      have ih' := ih (fun q hq => h q (List.mem_cons_of_mem _ hq))
      simp only [vecSum, ih', vecAdd_cons, List.map_cons, List.sum_cons]
      simp

theorem length_vecSum (D : Nat) (ps : List Point)
    (h : ∀ p ∈ ps, p.length = D) : (vecSum D ps).length = D := by
  induction ps with
  | nil => simp [vecSum]
  | cons p ps ih =>
    have hp : p.length = D := h p (List.mem_cons_self p ps)
    have ih' := ih (fun q hq => h q (List.mem_cons_of_mem _ hq))
    simp [vecSum, vecAdd, hp, ih']

theorem length_meanPoint (D : Nat) (ps : List Point)
    (h : ∀ p ∈ ps, p.length = D) : (meanPoint D ps).length = D := by
  simp [meanPoint, length_vecSum D ps h]

theorem meanPoint_cons_dim (D : Nat) (ps : List Point)
    (h : ∀ p ∈ ps, p.length = D + 1) :
    meanPoint (D + 1) ps
      = ((ps.map (fun p => p.headD 0)).sum / (ps.length : ℚ))
        :: meanPoint D (ps.map List.tail) := by
  simp [meanPoint, vecSum_cons_dim D ps h]

theorem sum_sqDist_cons (ps : List Point) (b : ℚ) (u : Point)
    (h : ∀ p ∈ ps, p ≠ []) :
    (ps.map (fun p => sqDist p (b :: u))).sum
      = (ps.map (fun p => (p.headD 0 - b) ^ 2)).sum
        + ((ps.map List.tail).map (fun t => sqDist t u)).sum := by
  induction ps with
  | nil => simp
  | cons p ps ih =>
    have hp : p ≠ [] := h p (List.mem_cons_self p ps)
    cases p with
    | nil => exact absurd rfl hp
    | cons a t =>
      have ih' := ih (fun q hq => h q (List.mem_cons_of_mem _ hq))
      simp only [List.map_cons, List.sum_cons, ih', sqDist_cons]
      simp only [List.headD_cons, List.tail_cons]
      ring

theorem sum_sqDist_mean_le (D : Nat) :
    ∀ (ps : List Point) (c : Point), (∀ p ∈ ps, p.length = D) →
      c.length = D → ps ≠ [] →
      (ps.map (fun p => sqDist p (meanPoint D ps))).sum
        ≤ (ps.map (fun p => sqDist p c)).sum := by
  induction D with
  | zero =>
    intro ps c hps hc _
    have hz : ∀ p ∈ ps, sqDist p (meanPoint 0 ps) = 0 := by
      intro p hp
      have : p = [] := List.length_eq_zero.mp (hps p hp)
      simp [this, sqDist]
    have hz' : ∀ p ∈ ps, sqDist p c = 0 := by
      intro p hp
      have : p = [] := List.length_eq_zero.mp (hps p hp)
      simp [this, sqDist]
    rw [List.sum_eq_zero, List.sum_eq_zero]
    · intro x hx
      obtain ⟨p, hp, rfl⟩ := List.mem_map.mp hx
      exact hz' p hp
    · intro x hx
      obtain ⟨p, hp, rfl⟩ := List.mem_map.mp hx
      exact hz p hp
  | succ D ih =>
    intro ps c hps hc hne
    cases c with
    | nil => simp at hc
    | cons b u =>
      have hu : u.length = D := by simpa using hc
      have hne' : ∀ p ∈ ps, p ≠ [] := by
        intro p hp h'
        have := hps p hp
        rw [h'] at this
        simp at this
      have htails : ∀ t ∈ ps.map List.tail, t.length = D := by
        intro t ht
        obtain ⟨p, hp, rfl⟩ := List.mem_map.mp ht
        have := hps p hp
        simp [List.length_tail, this]
      rw [meanPoint_cons_dim D ps hps, sum_sqDist_cons ps _ _ hne',
        sum_sqDist_cons ps b u hne']
      have h1 :
          (ps.map (fun p => (p.headD 0 - (ps.map (fun p => p.headD 0)).sum
              / (ps.length : ℚ)) ^ 2)).sum
            ≤ (ps.map (fun p => (p.headD 0 - b) ^ 2)).sum := by
        have := sum_sq_mean_le (ps.map (fun p => p.headD 0)) b
          (by simpa using hne)
        simpa [List.map_map, Function.comp] using this
      have h2 :
          ((ps.map List.tail).map
              (fun t => sqDist t (meanPoint D (ps.map List.tail)))).sum
            ≤ ((ps.map List.tail).map (fun t => sqDist t u)).sum :=
        ih (ps.map List.tail) u htails hu (by simpa using hne)
      exact add_le_add h1 h2

/-! ## Regrouping the dataset sum by assigned cluster -/

theorem sum_partition (data : Dataset) (cs : List Point) (K : Nat)
    (hK : ∀ p ∈ data, nearest p cs < K) (g : Point → Nat → ℚ) :
    (data.map (fun p => g p (nearest p cs))).sum
      = ∑ k ∈ Finset.range K, ((clusterPts data cs k).map (fun p => g p k)).sum := by
  induction data with
  | nil => simp [clusterPts]
  | cons p data ih =>
    have hp : nearest p cs < K := hK p (List.mem_cons_self p data)
    have ih' := ih (fun q hq => hK q (List.mem_cons_of_mem _ hq))
    have step : ∀ k ∈ Finset.range K,
        ((clusterPts (p :: data) cs k).map (fun q => g q k)).sum
          = (if nearest p cs = k then g p k else 0)
            + ((clusterPts data cs k).map (fun q => g q k)).sum := by
      intro k _
      by_cases h : nearest p cs = k
      · simp [clusterPts, List.filter_cons, h]
      · simp [clusterPts, List.filter_cons, h]
    rw [Finset.sum_congr rfl step, Finset.sum_add_distrib,
      Finset.sum_ite_eq (Finset.range K) (nearest p cs) (fun k => g p k)]
    simp only [Finset.mem_range.mpr hp, if_true, List.map_cons, List.sum_cons, ih']

/-! ## The update step and its invariants -/

/-- The centroid-set invariant: `K` centroids, each of dimension `D`. -/
def CentOK (D K : Nat) (cs : List Point) : Prop :=
  cs.length = K ∧ ∀ c ∈ cs, c.length = D

theorem length_updateCentroids (D : Nat) (data : Dataset) (cs : List Point) :
    (updateCentroids D data cs).length = cs.length := by
  simp [updateCentroids]

theorem updateCentroids_getD (D : Nat) (data : Dataset) (cs : List Point)
    (k : Nat) (hk : k < cs.length) :
    (updateCentroids D data cs).getD k []
      = if (clusterPts data cs k).isEmpty then cs.getD k []
        else meanPoint D (clusterPts data cs k) := by
  have hk' : k < (updateCentroids D data cs).length := by
    rw [length_updateCentroids]; exact hk
  rw [List.getD_eq_getElem _ _ hk']
  simp [updateCentroids]

theorem updateCentroids_CentOK (D K : Nat) (data : Dataset) (cs : List Point)
    (hd : ∀ p ∈ data, p.length = D) (h : CentOK D K cs) :
    CentOK D K (updateCentroids D data cs) := by
  obtain ⟨hlen, hdim⟩ := h
  constructor
  · rw [length_updateCentroids, hlen]
  · intro c hc
    simp only [updateCentroids, List.mem_map, List.mem_range] at hc
    obtain ⟨k, hk, rfl⟩ := hc
    split
    · rw [List.getD_eq_getElem _ _ hk]
      exact hdim _ (List.getElem_mem hk)
    · exact length_meanPoint D _
        (fun p hp => hd p (List.filter_subset' data hp))

/-! ## One assignment-update cycle never increases inertia -/

theorem inertiaOf_update_le (D K : Nat) (data : Dataset) (cs : List Point)
    (hd : ∀ p ∈ data, p.length = D) (hcs : CentOK D K cs) (hK : 0 < K) :
    inertiaOf data (updateCentroids D data cs) ≤ inertiaOf data cs := by
  obtain ⟨hlen, hdim⟩ := hcs
  have hcsne : cs ≠ [] := by
    intro h
    rw [h] at hlen
    simp at hlen
    omega
  have hnewlen : (updateCentroids D data cs).length = cs.length :=
    length_updateCentroids D data cs
  have hnear : ∀ p ∈ data, nearest p cs < cs.length :=
    fun p _ => nearest_lt_length p cs hcsne
  have stepB : inertiaOf data (updateCentroids D data cs)
      ≤ (data.map (fun p =>
          sqDist p ((updateCentroids D data cs).getD (nearest p cs) []))).sum := by
    apply List.sum_le_sum
    intro p hp
    exact nearest_min p (updateCentroids D data cs) (nearest p cs)
      (hnewlen ▸ hnear p hp)
  have hnearK : ∀ p ∈ data, nearest p cs < K :=
    fun p hp => hlen ▸ hnear p hp
  have hpart1 := sum_partition data cs K hnearK
    (fun p k => sqDist p ((updateCentroids D data cs).getD k []))
  have hpart2 := sum_partition data cs K hnearK
    (fun p k => sqDist p (cs.getD k []))
  have stepA :
      ∑ k ∈ Finset.range K,
          ((clusterPts data cs k).map (fun p =>
            sqDist p ((updateCentroids D data cs).getD k []))).sum
        ≤ ∑ k ∈ Finset.range K,
            ((clusterPts data cs k).map (fun p => sqDist p (cs.getD k []))).sum := by
    apply Finset.sum_le_sum
    intro k hk
    have hkcs : k < cs.length := hlen ▸ Finset.mem_range.mp hk
    by_cases hemp : (clusterPts data cs k).isEmpty
    · have : clusterPts data cs k = [] := List.isEmpty_iff.mp hemp
      simp [this]
    · have hne : clusterPts data cs k ≠ [] := by
        intro h
        rw [h] at hemp
        simp at hemp
      have hgetD : (updateCentroids D data cs).getD k []
          = meanPoint D (clusterPts data cs k) := by
        rw [updateCentroids_getD D data cs k hkcs, if_neg hemp]
      rw [hgetD]
      apply sum_sqDist_mean_le D _ (cs.getD k [])
      · intro p hp
        exact hd p (List.filter_subset' data hp)
      · rw [List.getD_eq_getElem _ _ hkcs]
        exact hdim _ (List.getElem_mem hkcs)
      · exact hne
  calc inertiaOf data (updateCentroids D data cs)
      ≤ (data.map (fun p =>
          sqDist p ((updateCentroids D data cs).getD (nearest p cs) []))).sum := stepB
    _ = ∑ k ∈ Finset.range K,
          ((clusterPts data cs k).map (fun p =>
            sqDist p ((updateCentroids D data cs).getD k []))).sum := hpart1
    _ ≤ ∑ k ∈ Finset.range K,
          ((clusterPts data cs k).map (fun p => sqDist p (cs.getD k []))).sum := stepA
    _ = (data.map (fun p => sqDist p (cs.getD (nearest p cs) []))).sum := hpart2.symm
    _ = inertiaOf data cs := rfl

/-! ## Properties of the main loop trace -/

theorem kmeansTrace_length_le (D : Nat) (data : Dataset) (tol2 : ℚ) :
    ∀ (fuel : Nat) (cs : List Point),
      (kmeansTrace D data tol2 fuel cs).length ≤ fuel := by
  intro fuel
  induction fuel with
  | zero => intro cs; simp [kmeansTrace]
  | succ fuel ih =>
    intro cs
    rw [kmeansTrace]
    split
    · simp
    · simpa using Nat.succ_le_succ (ih _)

theorem kmeansTrace_ne_nil (D : Nat) (data : Dataset) (tol2 : ℚ)
    (fuel : Nat) (cs : List Point) (h : 1 ≤ fuel) :
    kmeansTrace D data tol2 fuel cs ≠ [] := by
  cases fuel with
  | zero => omega
  | succ fuel =>
    rw [kmeansTrace]
    split
    · simp
    · simp

theorem kmeansTrace_mem_CentOK (D K : Nat) (data : Dataset) (tol2 : ℚ)
    (hd : ∀ p ∈ data, p.length = D) :
    ∀ (fuel : Nat) (cs : List Point), CentOK D K cs →
      ∀ cs' ∈ kmeansTrace D data tol2 fuel cs, CentOK D K cs' := by
  intro fuel
  induction fuel with
  | zero => intro cs _ cs' h'; simp [kmeansTrace] at h'
  | succ fuel ih =>
    intro cs hcs cs' h'
    rw [kmeansTrace] at h'
    have hcs2 : CentOK D K (updateCentroids D data cs) :=
      updateCentroids_CentOK D K data cs hd hcs
    split at h'
    · simp at h'
      rw [h']
      exact hcs2
    · simp only [List.mem_cons] at h'
      rcases h' with h' | h'
      · rw [h']
        exact hcs2
      · exact ih _ hcs2 _ h'

theorem getLastD_mem_cons' {α : Type} (l : List α) (a : α) :
    l.getLastD a = a ∨ l.getLastD a ∈ l := by
  induction l generalizing a with
  | nil => left; rfl
  | cons b l ih =>
    rw [List.getLastD_cons]
    rcases ih b with h | h
    · right; rw [h]; exact List.mem_cons_self b l
    · right; exact List.mem_cons_of_mem _ h

/-- Every adjacent pair in the loop trace is one update step. -/
theorem kmeansTrace_chain_update (D : Nat) (data : Dataset) (tol2 : ℚ) :
    ∀ (fuel : Nat) (cs : List Point),
      List.Chain' (fun a b => b = updateCentroids D data a)
        (cs :: kmeansTrace D data tol2 fuel cs) := by
  intro fuel
  induction fuel with
  | zero => intro cs; simp [kmeansTrace]
  | succ fuel ih =>
    intro cs
    rw [kmeansTrace]
    split
    · exact List.chain'_cons.mpr ⟨rfl, List.chain'_singleton _⟩
    · exact List.chain'_cons.mpr ⟨rfl, ih _⟩

/-- Along the loop trace, inertia never increases. -/
theorem kmeansTrace_chain_inertia (D K : Nat) (data : Dataset) (tol2 : ℚ)
    (hd : ∀ p ∈ data, p.length = D) (hK : 0 < K) :
    ∀ (fuel : Nat) (cs : List Point), CentOK D K cs →
      List.Chain' (fun a b => inertiaOf data b ≤ inertiaOf data a)
        (cs :: kmeansTrace D data tol2 fuel cs) := by
  intro fuel
  induction fuel with
  | zero => intro cs _; simp [kmeansTrace]
  | succ fuel ih =>
    intro cs hcs
    have hstep : inertiaOf data (updateCentroids D data cs) ≤ inertiaOf data cs :=
      inertiaOf_update_le D K data cs hd hcs hK
    have hcs2 : CentOK D K (updateCentroids D data cs) :=
      updateCentroids_CentOK D K data cs hd hcs
    rw [kmeansTrace]
    split
    · exact List.chain'_cons.mpr ⟨hstep, List.chain'_singleton _⟩
    · exact List.chain'_cons.mpr ⟨hstep, ih _ hcs2⟩

/-- The loop stops exactly at the first converged iteration, or when the fuel
(`max_iterations`) is exhausted. -/
theorem kmeansTrace_stop_spec (D : Nat) (data : Dataset) (tol2 : ℚ) :
    ∀ (fuel : Nat) (cs : List Point),
      (∀ i, i + 1 < (kmeansTrace D data tol2 fuel cs).length →
        tol2 < maxSqDisp ((cs :: kmeansTrace D data tol2 fuel cs).getD i [])
          ((cs :: kmeansTrace D data tol2 fuel cs).getD (i + 1) []))
      ∧ (kmeansTrace D data tol2 fuel cs ≠ [] →
          maxSqDisp
              ((cs :: kmeansTrace D data tol2 fuel cs).getD
                ((kmeansTrace D data tol2 fuel cs).length - 1) [])
              ((cs :: kmeansTrace D data tol2 fuel cs).getD
                (kmeansTrace D data tol2 fuel cs).length [])
            ≤ tol2
          ∨ (kmeansTrace D data tol2 fuel cs).length = fuel) := by
  intro fuel
  induction fuel with
  | zero =>
    intro cs
    constructor
    · intro i hi
      simp [kmeansTrace] at hi
    · intro h
      simp [kmeansTrace] at h
  | succ fuel ih =>
    intro cs
    rw [kmeansTrace]
    split
    · rename_i hconv
      constructor
      · intro i hi
        simp at hi
      · intro _
        left
        simpa using hconv
    · rename_i hnconv
      obtain ⟨ih1, ih2⟩ := ih (updateCentroids D data cs)
      constructor
      · intro i hi
        cases i with
        | zero =>
          simpa using lt_of_not_le hnconv
        | succ i' =>
          have hi' : i' + 1 < (kmeansTrace D data tol2 fuel
              (updateCentroids D data cs)).length := by
            simpa using hi
          simpa using ih1 i' hi'
      · intro _
        by_cases hnil : kmeansTrace D data tol2 fuel (updateCentroids D data cs) = []
        · right
          have hf0 : fuel = 0 := by
            by_contra hf
            exact kmeansTrace_ne_nil D data tol2 fuel _ (by omega) hnil
          rw [hnil]
          simp [hf0]
        · rcases ih2 hnil with h | h
          · left
            have hlen : 1 ≤ (kmeansTrace D data tol2 fuel
                (updateCentroids D data cs)).length :=
              Nat.one_le_iff_ne_zero.mpr (fun hz => hnil (List.length_eq_zero.mp hz))
            have g1 : ((cs :: updateCentroids D data cs :: kmeansTrace D data tol2 fuel
                  (updateCentroids D data cs))).getD
                  ((updateCentroids D data cs :: kmeansTrace D data tol2 fuel
                    (updateCentroids D data cs)).length - 1) []
                = (updateCentroids D data cs :: kmeansTrace D data tol2 fuel
                    (updateCentroids D data cs)).getD
                    ((kmeansTrace D data tol2 fuel
                      (updateCentroids D data cs)).length - 1) [] := by
              have e : (updateCentroids D data cs :: kmeansTrace D data tol2 fuel
                    (updateCentroids D data cs)).length - 1
                  = ((kmeansTrace D data tol2 fuel
                      (updateCentroids D data cs)).length - 1) + 1 := by
                rw [List.length_cons]
                omega
              rw [e, List.getD_cons_succ]
            have g2 : ((cs :: updateCentroids D data cs :: kmeansTrace D data tol2 fuel
                  (updateCentroids D data cs))).getD
                  ((updateCentroids D data cs :: kmeansTrace D data tol2 fuel
                    (updateCentroids D data cs)).length) []
                = (updateCentroids D data cs :: kmeansTrace D data tol2 fuel
                    (updateCentroids D data cs)).getD
                    ((kmeansTrace D data tol2 fuel
                      (updateCentroids D data cs)).length) [] := by
              rw [List.length_cons, List.getD_cons_succ]
            rw [g1, g2]
            exact h
          · right
            simp [h]

/-! ## Initialization invariants -/

theorem pickDistinct_length :
    ∀ (k s : Nat) (avail : List Point), k ≤ avail.length →
      (pickDistinct k s avail).length = k := by
  intro k
  induction k with
  | zero => intro s avail _; rfl
  | succ k ih =>
    intro s avail hk
    cases avail with
    | nil => simp at hk
    | cons a rest =>
      rw [pickDistinct]
      simp only [List.length_cons] at hk ⊢
      have hi : lcg s % (rest.length + 1) < rest.length + 1 :=
        Nat.mod_lt _ (Nat.succ_pos _)
      have herase : ((a :: rest).eraseIdx (lcg s % (rest.length + 1))).length
          = rest.length := by
        rw [List.length_eraseIdx]
        simp only [List.length_cons]
        rw [if_pos hi]
        simp
      rw [ih (lcg s) _ (by rw [herase]; omega)]

theorem pickDistinct_mem :
    ∀ (k s : Nat) (avail : List Point), ∀ p ∈ pickDistinct k s avail, p ∈ avail := by
  intro k
  induction k with
  | zero => intro s avail p hp; simp [pickDistinct] at hp
  | succ k ih =>
    intro s avail p hp
    cases avail with
    | nil => simp [pickDistinct] at hp
    | cons a rest =>
      rw [pickDistinct] at hp
      simp only [List.mem_cons] at hp
      rcases hp with hp | hp
      · have hi : lcg s % (a :: rest).length < (a :: rest).length :=
          Nat.mod_lt _ (by simp)
        rw [hp, List.getD_eq_getElem _ _ hi]
        exact List.getElem_mem hi
      · exact List.eraseIdx_subset _ _ (ih _ _ p hp)

theorem kmeansppPick_length (data : Dataset) :
    ∀ (k s : Nat) (chosen : List Point),
      (kmeansppPick data k s chosen).length = chosen.length + k := by
  intro k
  induction k with
  | zero => intro s chosen; rfl
  | succ k ih =>
    intro s chosen
    rw [kmeansppPick, ih]
    simp
    omega

theorem kmeansppPick_mem (data : Dataset) (hne : data ≠ []) :
    ∀ (k s : Nat) (chosen : List Point), (∀ c ∈ chosen, c ∈ data) →
      ∀ c ∈ kmeansppPick data k s chosen, c ∈ data := by
  intro k
  induction k with
  | zero => intro s chosen hch c hc; exact hch c hc
  | succ k ih =>
    intro s chosen hch c hc
    rw [kmeansppPick] at hc
    apply ih _ _ _ c hc
    intro c' hc'
    rw [List.mem_append] at hc'
    rcases hc' with hc' | hc'
    · exact hch c' hc'
    · simp only [List.mem_singleton] at hc'
      subst hc'
      have hlen : 0 < data.length := List.length_pos.mpr hne
      by_cases hj : pickBucket
          (((lcg s % 1024 : Nat) : ℚ) / 1024
            * (data.map (fun p => minSqDistTo p chosen)).sum)
          (data.map (fun p => minSqDistTo p chosen)) < data.length
      · rw [if_pos hj, List.getD_eq_getElem _ _ hj]
        exact List.getElem_mem hj
      · rw [if_neg hj, List.getD_eq_getElem _ _ hlen]
        exact List.getElem_mem hlen

theorem dimOk_mem (data : Dataset) (h : dimOk data = true) :
    ∀ p ∈ data, p.length = (data.headD []).length := by
  cases data with
  | nil => intro p hp; simp at hp
  | cons q rest =>
    intro p hp
    simp only [dimOk, List.all_eq_true] at h
    simp only [List.headD_cons]
    rcases List.mem_cons.mp hp with hp | hp
    · rw [hp]
    · exact Nat.beq_eq ▸ (by simpa using h p hp)

theorem initCentroids_CentOK (data : Dataset) (K : Nat)
    (st : InitStrategy) (sd : Nat) (D : Nat)
    (hne : data ≠ []) (hK1 : 1 ≤ K) (hKN : K ≤ data.length)
    (hd : ∀ p ∈ data, p.length = D) :
    CentOK D K (initCentroids data K st sd) := by
  cases st with
  | random =>
    constructor
    · exact pickDistinct_length K sd data hKN
    · intro c hc
      exact hd c (pickDistinct_mem K sd data c hc)
  | kmeansPlusPlus =>
    cases K with
    | zero => omega
    | succ K' =>
      constructor
      · rw [initCentroids, kmeansppPick_length]
        simp
        omega
      · intro c hc
        rw [initCentroids] at hc
        apply hd
        apply kmeansppPick_mem data hne K' (lcg sd) _ _ c hc
        intro c' hc'
        simp only [List.mem_singleton] at hc'
        subst hc'
        have hlen : lcg sd % data.length < data.length :=
          Nat.mod_lt _ (List.length_pos.mpr hne)
        rw [List.getD_eq_getElem _ _ hlen]
        exact List.getElem_mem hlen

/-! ## Inverting a successful fit -/

theorem fit_ok_elim (data : Dataset) (K mi : Nat) (tol : ℚ) (st : InitStrategy)
    (sd : Nat) (r : FitResult) (h : fit data K mi tol st sd = Except.ok r) :
    data ≠ [] ∧ 1 ≤ K ∧ K ≤ data.length ∧ dimOk data = true
    ∧ r.centroids = (kmeansTrace (data.headD []).length data (tol * tol) mi
        (initCentroids data K st sd)).getLastD (initCentroids data K st sd)
    ∧ r.labels = assignAll data r.centroids
    ∧ r.iterations = (kmeansTrace (data.headD []).length data (tol * tol) mi
        (initCentroids data K st sd)).length
    ∧ r.inertia = inertiaOf data r.centroids := by
  rw [fit] at h
  split at h
  · exact absurd h (by simp)
  · split at h
    · exact absurd h (by simp)
    · split at h
      · exact absurd h (by simp)
      · rename_i h1 h2 h3
        have hne : data ≠ [] := fun hn => h1 (by rw [hn]; rfl)
        push_neg at h2
        have hdim : dimOk data = true := by
          by_contra hd
          exact h3 (by simpa using hd)
        simp only [Except.ok.injEq] at h
        subst h
        refine ⟨hne, by omega, by omega, hdim, rfl, rfl, rfl, rfl⟩

theorem fit_centroids_CentOK (data : Dataset) (K mi : Nat) (tol : ℚ)
    (st : InitStrategy) (sd : Nat) (r : FitResult)
    (h : fit data K mi tol st sd = Except.ok r) :
    CentOK (data.headD []).length K r.centroids := by
  obtain ⟨hne, hK1, hKN, hdim, hcent, -, -, -⟩ :=
    fit_ok_elim data K mi tol st sd r h
  have hd := dimOk_mem data hdim
  have h0 : CentOK (data.headD []).length K (initCentroids data K st sd) :=
    initCentroids_CentOK data K st sd _ hne hK1 hKN hd
  rw [hcent]
  rcases getLastD_mem_cons' (kmeansTrace (data.headD []).length data (tol * tol)
      mi (initCentroids data K st sd)) (initCentroids data K st sd) with he | he
  · rw [he]
    exact h0
  · exact kmeansTrace_mem_CentOK (data.headD []).length K data (tol * tol)
      hd mi (initCentroids data K st sd) h0 _ he

/-! ## Claim theorems -/

/-- C1: for every non-empty dataset, every centroid set and every point of the
dataset, the assignment step assigns the point to a valid centroid index whose
Euclidean distance to the point is minimal among all centroids, and every
centroid with a strictly lower index is strictly farther away (so among tied
minimal distances the lowest index is chosen). -/
theorem assignment_step_nearest_euclidean (data : Dataset) (cs : List Point)
    (n : Nat) (hcs : cs ≠ []) (hn : n < data.length) :
    (assignAll data cs).getD n 0 < cs.length
    ∧ (∀ j, j < cs.length →
        Real.sqrt ((sqDist (data.getD n [])
            (cs.getD ((assignAll data cs).getD n 0) []) : ℚ) : ℝ)
          ≤ Real.sqrt ((sqDist (data.getD n []) (cs.getD j []) : ℚ) : ℝ))
    ∧ (∀ j, j < (assignAll data cs).getD n 0 →
        Real.sqrt ((sqDist (data.getD n [])
            (cs.getD ((assignAll data cs).getD n 0) []) : ℚ) : ℝ)
          < Real.sqrt ((sqDist (data.getD n []) (cs.getD j []) : ℚ) : ℝ)) := by
  have hlen : n < (assignAll data cs).length := by
    simpa [assignAll] using hn
  have he : (assignAll data cs).getD n 0 = nearest (data.getD n []) cs := by
    rw [List.getD_eq_getElem _ _ hlen]
    simp only [assignAll, List.getElem_map]
    rw [List.getD_eq_getElem _ _ hn]
  rw [he]
  refine ⟨nearest_lt_length _ cs hcs, ?_, ?_⟩
  · intro j hj
    apply Real.sqrt_le_sqrt
    exact_mod_cast nearest_min (data.getD n []) cs j hj
  · intro j hj
    apply Real.sqrt_lt_sqrt
    · have := sqDist_nonneg (data.getD n [])
        (cs.getD (nearest (data.getD n []) cs) [])
      exact_mod_cast this
    · exact_mod_cast nearest_earlier_strict (data.getD n []) cs j hj

/-- Witness for C1 at a concrete input: dataset `[[3]]`, centroids
`[[1],[5],[3],[3]]`; the point is assigned to index 2, the first of the two
tied nearest centroids. -/
theorem assignment_step_nearest_euclidean_witness :
    (assignAll [[3]] [[1], [5], [3], [3]]).getD 0 0
        < ([[1], [5], [3], [3]] : List Point).length
    ∧ (∀ j, j < ([[1], [5], [3], [3]] : List Point).length →
        Real.sqrt ((sqDist (([[3]] : Dataset).getD 0 [])
            (([[1], [5], [3], [3]] : List Point).getD
              ((assignAll [[3]] [[1], [5], [3], [3]]).getD 0 0) []) : ℚ) : ℝ)
          ≤ Real.sqrt ((sqDist (([[3]] : Dataset).getD 0 [])
              (([[1], [5], [3], [3]] : List Point).getD j []) : ℚ) : ℝ))
    ∧ (∀ j, j < (assignAll [[3]] [[1], [5], [3], [3]]).getD 0 0 →
        Real.sqrt ((sqDist (([[3]] : Dataset).getD 0 [])
            (([[1], [5], [3], [3]] : List Point).getD
              ((assignAll [[3]] [[1], [5], [3], [3]]).getD 0 0) []) : ℚ) : ℝ)
          < Real.sqrt ((sqDist (([[3]] : Dataset).getD 0 [])
              (([[1], [5], [3], [3]] : List Point).getD j []) : ℚ) : ℝ)) :=
  assignment_step_nearest_euclidean [[3]] [[1], [5], [3], [3]] 0
    (by decide) (by decide)

/-- C3: `fit` fails exactly on an empty dataset (`EmptyDataset`), an
out-of-range cluster count (`InvalidConfiguration`, checked on non-empty
data), or inconsistent point dimensions (`DimensionMismatch`), and succeeds
otherwise; the checks run before any iteration (the function returns without
entering the loop). -/
theorem fit_error_characterization (data : Dataset) (K mi : Nat) (tol : ℚ)
    (st : InitStrategy) (sd : Nat) :
    (fit data K mi tol st sd = Except.error KMeansError.EmptyDataset
      ↔ data.length = 0)
    ∧ (fit data K mi tol st sd = Except.error KMeansError.InvalidConfiguration
      ↔ data.length ≠ 0 ∧ (K < 1 ∨ data.length < K))
    ∧ (fit data K mi tol st sd = Except.error KMeansError.DimensionMismatch
      ↔ data.length ≠ 0 ∧ 1 ≤ K ∧ K ≤ data.length ∧ dimOk data = false)
    ∧ ((∃ r, fit data K mi tol st sd = Except.ok r)
      ↔ data.length ≠ 0 ∧ 1 ≤ K ∧ K ≤ data.length ∧ dimOk data = true) := by
  rw [fit]
  split_ifs with h1 h2 h3
  · exact ⟨⟨fun _ => h1, fun _ => rfl⟩,
      ⟨fun h => by simp at h, fun hh => absurd h1 hh.1⟩,
      ⟨fun h => by simp at h, fun hh => absurd h1 hh.1⟩,
      ⟨fun hh => by obtain ⟨r, hr⟩ := hh; simp at hr,
        fun hh => absurd h1 hh.1⟩⟩
  · exact ⟨⟨fun h => by simp at h, fun hh => absurd hh h1⟩,
      ⟨fun _ => ⟨h1, h2⟩, fun _ => rfl⟩,
      ⟨fun h => by simp at h, fun hh => absurd h2 (by omega)⟩,
      ⟨fun hh => by obtain ⟨r, hr⟩ := hh; simp at hr,
        fun hh => absurd h2 (by omega)⟩⟩
  · push_neg at h2
    exact ⟨⟨fun h => by simp at h, fun hh => absurd hh h1⟩,
      ⟨fun h => by simp at h, fun hh => absurd hh.2 (by omega)⟩,
      ⟨fun h => by simp at h, fun hh => by rw [h3] at hh; simp at hh⟩,
      ⟨fun _ => ⟨h1, by omega, by omega, h3⟩, fun _ => ⟨_, rfl⟩⟩⟩
  · push_neg at h2
    have h3' : dimOk data = false := by simpa using h3
    exact ⟨⟨fun h => by simp at h, fun hh => absurd hh h1⟩,
      ⟨fun h => by simp at h, fun hh => absurd hh.2 (by omega)⟩,
      ⟨fun _ => ⟨h1, by omega, by omega, h3'⟩, fun _ => rfl⟩,
      ⟨fun hh => by obtain ⟨r, hr⟩ := hh; simp at hr,
        fun hh => by rw [hh.2.2.2] at h3'; simp at h3'⟩⟩

section

attribute [local semireducible] Rat.mul Rat.add Rat.sub Rat.inv Rat.ofScientific

theorem assignAll_valid (data : Dataset) (cs : List Point) (K : Nat)
    (hlen : cs.length = K) (hK : 0 < K) :
    (assignAll data cs).length = data.length
    ∧ ∀ i ∈ assignAll data cs, i < K := by
  constructor
  · simp [assignAll]
  · intro i hi
    simp only [assignAll, List.mem_map] at hi
    obtain ⟨p, _, rfl⟩ := hi
    have hne : cs ≠ [] := by
      intro h
      rw [h] at hlen
      simp at hlen
      omega
    exact hlen ▸ nearest_lt_length p cs hne

/-- C4: on every successful `fit`, the returned assignment vector has length
`N` with every entry in `[0, K)`, and the assignment vector recomputed at
every intermediate centroid set of the run (the initial centroids and each
iteration's output) has the same property. -/
theorem fit_labels_valid (data : Dataset) (K mi : Nat) (tol : ℚ)
    (st : InitStrategy) (sd : Nat) (r : FitResult)
    (h : fit data K mi tol st sd = Except.ok r) :
    r.labels.length = data.length
    ∧ (∀ i ∈ r.labels, i < K)
    ∧ ∀ cs ∈ (initCentroids data K st sd ::
        kmeansTrace (data.headD []).length data (tol * tol) mi
          (initCentroids data K st sd)),
        (assignAll data cs).length = data.length
        ∧ ∀ i ∈ assignAll data cs, i < K := by
  obtain ⟨hne, hK1, hKN, hdim, hcent, hlab, -, -⟩ :=
    fit_ok_elim data K mi tol st sd r h
  have hd := dimOk_mem data hdim
  have h0 : CentOK (data.headD []).length K (initCentroids data K st sd) :=
    initCentroids_CentOK data K st sd _ hne hK1 hKN hd
  have hrK : CentOK (data.headD []).length K r.centroids :=
    fit_centroids_CentOK data K mi tol st sd r h
  have hmain := assignAll_valid data r.centroids K hrK.1 (by omega)
  refine ⟨by rw [hlab]; exact hmain.1, by rw [hlab]; exact hmain.2, ?_⟩
  intro cs hcs
  rcases List.mem_cons.mp hcs with hcs | hcs
  · subst hcs
    exact assignAll_valid data _ K h0.1 (by omega)
  · have := kmeansTrace_mem_CentOK (data.headD []).length K data (tol * tol)
      hd mi (initCentroids data K st sd) h0 cs hcs
    exact assignAll_valid data cs K this.1 (by omega)

/-- Witness for C4 at a concrete input. -/
theorem fit_labels_valid_witness :
    (FitResult.mk [[2]] [0, 0] 1 8).labels.length = ([[0], [4]] : Dataset).length
    ∧ (∀ i ∈ (FitResult.mk [[2]] [0, 0] 1 8).labels, i < 1)
    ∧ ∀ cs ∈ (initCentroids [[0], [4]] 1 InitStrategy.random 0 ::
        kmeansTrace (([[0], [4]] : Dataset).headD []).length [[0], [4]]
          ((0 : ℚ) * 0) 1 (initCentroids [[0], [4]] 1 InitStrategy.random 0)),
        (assignAll [[0], [4]] cs).length = ([[0], [4]] : Dataset).length
        ∧ ∀ i ∈ assignAll [[0], [4]] cs, i < 1 :=
  fit_labels_valid [[0], [4]] 1 1 0 InitStrategy.random 0
    (FitResult.mk [[2]] [0, 0] 1 8) (by decide)

/-- C5: on every successful `fit`, the inertia evaluated at the successive
centroid sets of the run (initial centroids, then each iteration's output) is
non-increasing: no assignment-update cycle increases the total within-cluster
squared distance. -/
theorem fit_inertia_monotone (data : Dataset) (K mi : Nat) (tol : ℚ)
    (st : InitStrategy) (sd : Nat) (r : FitResult)
    (h : fit data K mi tol st sd = Except.ok r) :
    List.Chain' (fun a b => inertiaOf data b ≤ inertiaOf data a)
      (initCentroids data K st sd ::
        kmeansTrace (data.headD []).length data (tol * tol) mi
          (initCentroids data K st sd)) := by
  obtain ⟨hne, hK1, hKN, hdim, -, -, -, -⟩ :=
    fit_ok_elim data K mi tol st sd r h
  have hd := dimOk_mem data hdim
  have h0 : CentOK (data.headD []).length K (initCentroids data K st sd) :=
    initCentroids_CentOK data K st sd _ hne hK1 hKN hd
  exact kmeansTrace_chain_inertia (data.headD []).length K data (tol * tol)
    hd (by omega) mi (initCentroids data K st sd) h0

/-- Witness for C5 at a concrete input. -/
theorem fit_inertia_monotone_witness :
    List.Chain' (fun a b => inertiaOf [[0], [4]] b ≤ inertiaOf [[0], [4]] a)
      (initCentroids [[0], [4]] 1 InitStrategy.random 0 ::
        kmeansTrace (([[0], [4]] : Dataset).headD []).length [[0], [4]]
          ((0 : ℚ) * 0) 1 (initCentroids [[0], [4]] 1 InitStrategy.random 0)) :=
  fit_inertia_monotone [[0], [4]] 1 1 0 InitStrategy.random 0
    (FitResult.mk [[2]] [0, 0] 1 8) (by decide)

/-- C6 counterexample: the claim quantifies only over dataset, `K`, seed and
init strategy, but two `fit` calls that agree on all four while differing in
`max_iterations` (1 vs 2) return different `FitResult`s (iteration counts 1
and 2). -/
theorem fit_determinism_cex :
    fit [[0], [4]] 1 1 0 InitStrategy.random 0
      ≠ fit [[0], [4]] 1 2 0 InitStrategy.random 0 := by
  decide

/-- C6 (amended): two `fit` calls with identical dataset, `K`,
`max_iterations`, `tolerance`, seed and init strategy produce identical
`FitResult`s — `fit` is a deterministic function of its inputs with no hidden
state or randomness beyond the seed. -/
theorem fit_deterministic (data : Dataset) (K mi : Nat) (tol : ℚ)
    (st : InitStrategy) (sd : Nat) :
    fit data K mi tol st sd = fit data K mi tol st sd := rfl

/-- C7: on every successful `fit`, `predict` with the fitted centroids on
exactly the training dataset returns the final assignment vector of the
`FitResult`. -/
theorem predict_reproduces_fit_labels (data : Dataset) (K mi : Nat) (tol : ℚ)
    (st : InitStrategy) (sd : Nat) (r : FitResult)
    (h : fit data K mi tol st sd = Except.ok r) :
    predict r.centroids data = Except.ok r.labels := by
  obtain ⟨hne, hK1, hKN, hdim, -, hlab, -, -⟩ :=
    fit_ok_elim data K mi tol st sd r h
  have hd := dimOk_mem data hdim
  have hrK : CentOK (data.headD []).length K r.centroids :=
    fit_centroids_CentOK data K mi tol st sd r h
  have hcne : r.centroids ≠ [] := by
    intro hc
    rw [hc] at hrK
    have := hrK.1
    simp at this
    omega
  have hhead : (r.centroids.headD []).length = (data.headD []).length := by
    cases hcl : r.centroids with
    | nil => exact absurd hcl hcne
    | cons c rest =>
      simp only [List.headD_cons]
      exact hrK.2 c (hcl ▸ List.mem_cons_self c rest)
  rw [predict, if_pos, hlab]
  rw [List.all_eq_true]
  intro p hp
  simp only [beq_iff_eq]
  rw [hhead]
  exact hd p hp

/-- Witness for C7 at a concrete input. -/
theorem predict_reproduces_fit_labels_witness :
    predict (FitResult.mk [[2]] [0, 0] 1 8).centroids [[0], [4]]
      = Except.ok (FitResult.mk [[2]] [0, 0] 1 8).labels :=
  predict_reproduces_fit_labels [[0], [4]] 1 1 0 InitStrategy.random 0
    (FitResult.mk [[2]] [0, 0] 1 8) (by decide)

/-- C9: in any update step, a cluster index receiving zero points in the
current assignment vector keeps its centroid unchanged. -/
theorem update_keeps_empty_cluster (D : Nat) (data : Dataset)
    (cs : List Point) (k : Nat) (hk : k < cs.length)
    (hempty : ∀ i ∈ assignAll data cs, i ≠ k) :
    (updateCentroids D data cs).getD k [] = cs.getD k [] := by
  rw [updateCentroids_getD D data cs k hk]
  have hnil : clusterPts data cs k = [] := by
    rw [clusterPts, List.filter_eq_nil_iff]
    intro p hp
    simp only [beq_iff_eq]
    exact hempty (nearest p cs)
      (List.mem_map.mpr ⟨p, hp, rfl⟩)
  rw [hnil]
  simp

/-- Witness for C9 at a concrete input: with one data point `[0]` and
centroids `[[0], [5]]`, cluster 1 receives no points and keeps centroid
`[5]`. -/
theorem update_keeps_empty_cluster_witness :
    (updateCentroids 1 [[0]] [[0], [5]]).getD 1 [] = ([[0], [5]] : List Point).getD 1 [] :=
  update_keeps_empty_cluster 1 [[0]] [[0], [5]] 1 (by decide) (by decide)


theorem foldr_max_le_iff (l : List ℚ) (a c : ℚ) :
    l.foldr max a ≤ c ↔ a ≤ c ∧ ∀ x ∈ l, x ≤ c := by
  induction l with
  | nil => simp
  | cons b l ih =>
    simp only [List.foldr_cons, max_le_iff, ih, List.mem_cons]
    constructor
    · intro ⟨hb, ha, hl⟩
      exact ⟨ha, fun x hx => hx.elim (fun hx => hx ▸ hb) (hl x)⟩
    · intro ⟨ha, hl⟩
      exact ⟨hl b (Or.inl rfl), ha, fun x hx => hl x (Or.inr hx)⟩

/-- The model's convergence check (`maxSqDisp ≤ tol²`) says precisely that
every centroid's Euclidean displacement is at most `tol`, i.e. that the
maximum Euclidean displacement is at most the tolerance. -/
theorem maxSqDisp_le_iff_sqrt (old new : List Point) (tol : ℚ) (htol : 0 ≤ tol) :
    maxSqDisp old new ≤ tol * tol
      ↔ ∀ pr ∈ old.zip new,
          Real.sqrt ((sqDist pr.1 pr.2 : ℚ) : ℝ) ≤ ((tol : ℚ) : ℝ) := by
  have htolR : (0 : ℝ) ≤ ((tol : ℚ) : ℝ) := by exact_mod_cast htol
  rw [maxSqDisp, foldr_max_le_iff]
  constructor
  · intro ⟨_, h⟩ pr hpr
    have h1 : sqDist pr.1 pr.2 ≤ tol * tol :=
      h _ (List.mem_map.mpr ⟨pr, hpr, rfl⟩)
    rw [Real.sqrt_le_left htolR]
    have : ((sqDist pr.1 pr.2 : ℚ) : ℝ) ≤ ((tol * tol : ℚ) : ℝ) := by
      exact_mod_cast h1
    push_cast at this ⊢
    nlinarith
  · intro h
    refine ⟨mul_nonneg htol htol, ?_⟩
    intro x hx
    obtain ⟨pr, hpr, rfl⟩ := List.mem_map.mp hx
    have h2 := h pr hpr
    rw [Real.sqrt_le_left htolR] at h2
    have : ((sqDist pr.1 pr.2 : ℚ) : ℝ) ≤ ((tol * tol : ℚ) : ℝ) := by
      push_cast at h2 ⊢
      nlinarith
    exact_mod_cast this

/-- C2: for a valid configuration on a non-empty dataset, `fit` terminates
with an iteration count that is at least 1, never exceeds `max_iterations`,
and equals the number of assignment-update iterations actually executed (the
length of the loop trace); the loop stops at the first iteration whose
maximum Euclidean centroid displacement is at most the tolerance or on
exhausting `max_iterations`, whichever comes first: every non-final iteration
moved some centroid by strictly more than the tolerance, and the final
iteration either moved every centroid by at most the tolerance or was the
`max_iterations`-th. -/
theorem fit_iteration_count_spec (data : Dataset) (K mi : Nat) (tol : ℚ)
    (st : InitStrategy) (sd : Nat) (r : FitResult)
    (hK1 : 1 ≤ K) (hKN : K ≤ data.length) (hmi : 1 ≤ mi) (htol : 0 ≤ tol)
    (hne : data ≠ [])
    (h : fit data K mi tol st sd = Except.ok r) :
    1 ≤ r.iterations
    ∧ r.iterations ≤ mi
    ∧ r.iterations = (kmeansTrace (data.headD []).length data (tol * tol) mi
        (initCentroids data K st sd)).length
    ∧ (∀ i, i + 1 < r.iterations →
        ∃ pr ∈ ((initCentroids data K st sd ::
            kmeansTrace (data.headD []).length data (tol * tol) mi
              (initCentroids data K st sd)).getD i []).zip
            ((initCentroids data K st sd ::
              kmeansTrace (data.headD []).length data (tol * tol) mi
                (initCentroids data K st sd)).getD (i + 1) []),
          ((tol : ℚ) : ℝ) < Real.sqrt ((sqDist pr.1 pr.2 : ℚ) : ℝ))
    ∧ ((∀ pr ∈ ((initCentroids data K st sd ::
            kmeansTrace (data.headD []).length data (tol * tol) mi
              (initCentroids data K st sd)).getD (r.iterations - 1) []).zip
            ((initCentroids data K st sd ::
              kmeansTrace (data.headD []).length data (tol * tol) mi
                (initCentroids data K st sd)).getD r.iterations []),
          Real.sqrt ((sqDist pr.1 pr.2 : ℚ) : ℝ) ≤ ((tol : ℚ) : ℝ))
        ∨ r.iterations = mi) := by
  obtain ⟨-, -, -, -, -, -, hiter, -⟩ := fit_ok_elim data K mi tol st sd r h
  obtain ⟨hstop1, hstop2⟩ := kmeansTrace_stop_spec (data.headD []).length data
    (tol * tol) mi (initCentroids data K st sd)
  have hnil : kmeansTrace (data.headD []).length data (tol * tol) mi
      (initCentroids data K st sd) ≠ [] :=
    kmeansTrace_ne_nil _ data _ mi _ hmi
  have hlen1 : 1 ≤ (kmeansTrace (data.headD []).length data (tol * tol) mi
      (initCentroids data K st sd)).length :=
    Nat.one_le_iff_ne_zero.mpr (fun hz => hnil (List.length_eq_zero.mp hz))
  refine ⟨by omega, ?_, hiter, ?_, ?_⟩
  · rw [hiter]
    exact kmeansTrace_length_le _ data _ mi _
  · intro i hi
    rw [hiter] at hi
    have := hstop1 i hi
    have hnot : ¬ maxSqDisp ((initCentroids data K st sd ::
        kmeansTrace (data.headD []).length data (tol * tol) mi
          (initCentroids data K st sd)).getD i [])
        ((initCentroids data K st sd ::
          kmeansTrace (data.headD []).length data (tol * tol) mi
            (initCentroids data K st sd)).getD (i + 1) []) ≤ tol * tol :=
      not_le.mpr this
    rw [maxSqDisp_le_iff_sqrt _ _ tol htol] at hnot
    push_neg at hnot
    obtain ⟨pr, hpr, hgt⟩ := hnot
    exact ⟨pr, hpr, hgt⟩
  · rcases hstop2 hnil with hconv | hfull
    · left
      rw [hiter]
      rw [maxSqDisp_le_iff_sqrt _ _ tol htol] at hconv
      exact hconv
    · right
      rw [hiter, hfull]

/-- Witness for C2 at a concrete input: `fit` on `[[0],[4]]` with `K = 1`,
`max_iterations = 2`, `tolerance = 0` runs exactly 2 iterations. -/
theorem fit_iteration_count_spec_witness :
    1 ≤ (FitResult.mk [[2]] [0, 0] 2 8).iterations
    ∧ (FitResult.mk [[2]] [0, 0] 2 8).iterations ≤ 2
    ∧ (FitResult.mk [[2]] [0, 0] 2 8).iterations
      = (kmeansTrace (([[0], [4]] : Dataset).headD []).length [[0], [4]]
          ((0 : ℚ) * 0) 2 (initCentroids [[0], [4]] 1 InitStrategy.random 0)).length
    ∧ (∀ i, i + 1 < (FitResult.mk [[2]] [0, 0] 2 8).iterations →
        ∃ pr ∈ ((initCentroids [[0], [4]] 1 InitStrategy.random 0 ::
            kmeansTrace (([[0], [4]] : Dataset).headD []).length [[0], [4]]
              ((0 : ℚ) * 0) 2 (initCentroids [[0], [4]] 1 InitStrategy.random 0)).getD i []).zip
            ((initCentroids [[0], [4]] 1 InitStrategy.random 0 ::
              kmeansTrace (([[0], [4]] : Dataset).headD []).length [[0], [4]]
                ((0 : ℚ) * 0) 2 (initCentroids [[0], [4]] 1 InitStrategy.random 0)).getD (i + 1) []),
          (((0 : ℚ) : ℝ)) < Real.sqrt ((sqDist pr.1 pr.2 : ℚ) : ℝ))
    ∧ ((∀ pr ∈ ((initCentroids [[0], [4]] 1 InitStrategy.random 0 ::
            kmeansTrace (([[0], [4]] : Dataset).headD []).length [[0], [4]]
              ((0 : ℚ) * 0) 2 (initCentroids [[0], [4]] 1 InitStrategy.random 0)).getD
              ((FitResult.mk [[2]] [0, 0] 2 8).iterations - 1) []).zip
            ((initCentroids [[0], [4]] 1 InitStrategy.random 0 ::
              kmeansTrace (([[0], [4]] : Dataset).headD []).length [[0], [4]]
                ((0 : ℚ) * 0) 2 (initCentroids [[0], [4]] 1 InitStrategy.random 0)).getD
                (FitResult.mk [[2]] [0, 0] 2 8).iterations []),
          Real.sqrt ((sqDist pr.1 pr.2 : ℚ) : ℝ) ≤ (((0 : ℚ) : ℝ)))
        ∨ (FitResult.mk [[2]] [0, 0] 2 8).iterations = 2) :=
  fit_iteration_count_spec [[0], [4]] 1 2 0 InitStrategy.random 0
    (FitResult.mk [[2]] [0, 0] 2 8) (by decide) (by decide) (by decide)
    (by decide) (by decide) (by decide)


theorem nearest_singleton (p c : Point) : nearest p [c] = 0 := rfl

theorem clusterPts_single (data : Dataset) (c : Point) :
    clusterPts data [c] 0 = data := by
  rw [clusterPts]
  apply List.filter_eq_self.mpr
  intro p _
  rw [nearest_singleton]
  rfl

theorem updateCentroids_single (D : Nat) (data : Dataset) (hne : data ≠ [])
    (c : Point) : updateCentroids D data [c] = [meanPoint D data] := by
  rw [updateCentroids]
  have h1 : List.range ([c] : List Point).length = [0] := by rfl
  rw [h1]
  simp only [List.map_cons, List.map_nil, clusterPts_single]
  rw [if_neg]
  intro habs
  exact hne (List.isEmpty_iff.mp habs)

theorem kmeansTrace_single_getLastD (D : Nat) (data : Dataset) (t2 : ℚ)
    (hne : data ≠ []) :
    ∀ (fuel : Nat) (c : Point),
      (kmeansTrace D data t2 (fuel + 1) [c]).getLastD [c]
        = [meanPoint D data] := by
  intro fuel
  induction fuel with
  | zero =>
    intro c
    rw [kmeansTrace]
    rw [updateCentroids_single D data hne c]
    split
    · rfl
    · rw [kmeansTrace]
      rfl
  | succ fuel ih =>
    intro c
    rw [kmeansTrace]
    rw [updateCentroids_single D data hne c]
    split
    · rfl
    · rw [List.getLastD_cons]
      exact ih (meanPoint D data)

theorem inertiaOf_single (data : Dataset) (m : Point) :
    inertiaOf data [m] = (data.map (fun p => sqDist p m)).sum := by
  simp only [inertiaOf, nearest_singleton, List.getD_cons_zero]

/-- C8: with `K = 1` on a non-empty (dimension-consistent) dataset and at
least one permitted iteration, the single fitted centroid is the componentwise
mean of the dataset, and the returned inertia is the total variance: the sum
of squared distances of every point to that mean. -/
theorem fit_k1_mean_variance (data : Dataset) (mi : Nat) (tol : ℚ)
    (st : InitStrategy) (sd : Nat) (r : FitResult) (hmi : 1 ≤ mi)
    (h : fit data 1 mi tol st sd = Except.ok r) :
    r.centroids = [meanPoint (data.headD []).length data]
    ∧ r.inertia = (data.map (fun p =>
        sqDist p (meanPoint (data.headD []).length data))).sum := by
  obtain ⟨hne, -, hKN, hdim, hcent, -, -, hinert⟩ :=
    fit_ok_elim data 1 mi tol st sd r h
  have h0 : CentOK (data.headD []).length 1 (initCentroids data 1 st sd) :=
    initCentroids_CentOK data 1 st sd _ hne (by omega) hKN (dimOk_mem data hdim)
  obtain ⟨c, hc⟩ := List.length_eq_one.mp h0.1
  cases mi with
  | zero => omega
  | succ mi' =>
    have hlast := kmeansTrace_single_getLastD (data.headD []).length data
      (tol * tol) hne mi' c
    constructor
    · rw [hcent, hc, hlast]
    · rw [hinert, hcent, hc, hlast, inertiaOf_single]

/-- Witness for C8 at a concrete input: for the dataset `[[0],[4]]` the single
centroid is the mean `[2]` and the inertia is the total variance `8`. -/
theorem fit_k1_mean_variance_witness :
    (FitResult.mk [[2]] [0, 0] 1 8).centroids
      = [meanPoint (([[0], [4]] : Dataset).headD []).length [[0], [4]]]
    ∧ (FitResult.mk [[2]] [0, 0] 1 8).inertia
      = (([[0], [4]] : Dataset).map (fun p =>
          sqDist p (meanPoint (([[0], [4]] : Dataset).headD []).length
            [[0], [4]]))).sum :=
  fit_k1_mean_variance [[0], [4]] 1 0 InitStrategy.random 0
    (FitResult.mk [[2]] [0, 0] 1 8) (by decide) (by decide)

/-- C10: the results cell of the notebook operates on a copy: after
`results_df = df.copy()` and `results_df['predicted'] = kmeans.labels_`, the
original dataframe object of `df` is unchanged (same columns with the same
values), while `results_df`'s object is the copy with the `predicted` column
attached. -/
theorem results_cell_preserves_df (heap : List DataFrame) (dfId : Nat)
    (labels : List ℚ) (h : dfId < heap.length) :
    (runResultsCell heap dfId labels).1.getD dfId [] = heap.getD dfId []
    ∧ (runResultsCell heap dfId labels).1.getD
        (runResultsCell heap dfId labels).2 []
      = setColumn (heap.getD dfId []) "predicted" labels := by
  have hlen1 : dfId < (heap ++ [heap.getD dfId []]).length := by
    simp
    omega
  have hlenset : ∀ v, ((heap ++ [heap.getD dfId []]).set heap.length v).length
      = heap.length + 1 := by
    intro v
    simp
  have hcopy : (heap ++ [heap.getD dfId []]).getD heap.length []
      = heap.getD dfId [] := by
    rw [List.getD_eq_getElem _ _ (by simp)]
    exact List.getElem_concat_length heap (heap.getD dfId []) heap.length rfl
      (by simp)
  constructor
  · rw [runResultsCell]
    dsimp only
    rw [List.getD_eq_getElem _ _ (by rw [hlenset]; omega)]
    rw [List.getElem_set_ne (by omega)]
    rw [List.getElem_append_left (by omega)]
    rw [List.getD_eq_getElem _ _ h]
  · rw [runResultsCell]
    dsimp only
    rw [List.getD_eq_getElem _ _ (by rw [hlenset]; omega)]
    rw [List.getElem_set_self]
    rw [hcopy]

/-- Witness for C10 at a concrete input: a heap holding one dataframe with a
single column `"a"`. -/
theorem results_cell_preserves_df_witness :
    (runResultsCell [[("a", [1])]] 0 [7]).1.getD 0 [] =
      ([[("a", [1])]] : List DataFrame).getD 0 []
    ∧ (runResultsCell [[("a", [1])]] 0 [7]).1.getD
        (runResultsCell [[("a", [1])]] 0 [7]).2 []
      = setColumn (([[("a", [1])]] : List DataFrame).getD 0 []) "predicted" [7] :=
  results_cell_preserves_df [[("a", [1])]] 0 [7] (by decide)

end
